import Mathlib

/-!
Verification of the ratli rate-limiting plugin.

This file shallowly embeds the core of the plugin: the bounded in-memory
rate-limit store (consume / getStatus / delete / reset / cleanup / eviction),
the client-identifier resolver (IP mode with X-Forwarded-For chain walking,
key mode with sanitization and allow/block lists, and the IP fallback path),
and the callback-isolating denial handlers.  JavaScript `Map`s are embedded
as insertion-ordered association lists, JS numbers as `Int`, JS `undefined`
or missing values as `Option`, and JS truthiness of numbers and strings is
made explicit.  The external `node:net` validators `isIPv4` and `isIPv6`
(imported by the source, not part of the repository) are modelled from
their documented behaviour.
-/

namespace Ratli

/-- One rate-limit record: remaining points, window end (epoch ms), and the
optional block end (epoch ms; `none` embeds JS `undefined`). -/
structure RateLimitEntry where
  points : Int
  resetTime : Int
  blockedUntil : Option Int
deriving Repr, DecidableEq

/-- The backing `Map<string, RateLimitEntry>`: an insertion-ordered
association list. -/
abbrev StorageMap := List (String × RateLimitEntry)

/-- `Map.get`: the value at the first matching key, if any. -/
def mapGet : StorageMap → String → Option RateLimitEntry
  | [], _ => none
  | (k₁, v) :: rest, k => if k₁ = k then some v else mapGet rest k

/-- `Map.set`: replace in place when the key exists, append otherwise. -/
def mapSet : StorageMap → String → RateLimitEntry → StorageMap
  | [], k, v => [(k, v)]
  | (k₁, v₁) :: rest, k, v =>
    if k₁ = k then (k, v) :: rest else (k₁, v₁) :: mapSet rest k v

/-- `Map.delete`: remove the (unique) entry for the key. -/
def mapDelete : StorageMap → String → StorageMap
  | [], _ => []
  | (k₁, v₁) :: rest, k => if k₁ = k then rest else (k₁, v₁) :: mapDelete rest k

/-- `Map.has`. -/
def storageHas (m : StorageMap) (k : String) : Bool := (mapGet m k).isSome

/-- JS truthiness of an optional number (`undefined` and `0` are falsy). -/
def truthyNum : Option Int → Bool
  | none => false
  | some n => n != 0

/-- JS truthiness of an optional string (`undefined` and `""` are falsy). -/
def truthyStr : Option String → Bool
  | none => false
  | some s => s != ""

/-- The `MemoryStorage` state: the map, the fixed capacity, and the cached
earliest-expiry hint (`oldestTime = none` embeds `Infinity`). -/
structure MemoryStorage where
  storage : StorageMap
  maxSize : Nat
  oldestKey : Option String
  oldestTime : Option Int
deriving Repr

/-- `r < t` where `t = none` stands for `Infinity`. -/
def ltInfinity (r : Int) : Option Int → Bool
  | none => true
  | some t => decide (r < t)

/-- The state produced by the `MemoryStorage` constructor. -/
def emptyStorage (maxSize : Nat) : MemoryStorage :=
  { storage := [], maxSize := maxSize, oldestKey := none, oldestTime := none }

/-- The scan loop of `updateOldestEntry`: fold over entries keeping the first
strictly earlier `resetTime`. -/
def scanOldest : StorageMap → Option String → Option Int → Option String × Option Int
  | [], k, t => (k, t)
  | (key, e) :: rest, k, t =>
    if ltInfinity e.resetTime t then scanOldest rest (some key) (some e.resetTime)
    else scanOldest rest k t

/-- `updateOldestEntry`: recompute the earliest-expiry hint by full scan. -/
def updateOldestEntry (s : MemoryStorage) : MemoryStorage :=
  if s.storage = [] then { s with oldestKey := none, oldestTime := none }
  else
    let p := scanOldest s.storage none none
    { s with oldestKey := p.1, oldestTime := p.2 }

/-- Whether the hint names a key still present (`oldestKey !== null &&
storage.has(oldestKey)`). -/
def hintValid (s : MemoryStorage) : Bool :=
  match s.oldestKey with
  | none => false
  | some k => storageHas s.storage k

/-- Second half of `evictOldest`: delete the hinted key when it is truthy
(non-null and non-empty) and recompute the hint. -/
def evictHinted (s₁ : MemoryStorage) : MemoryStorage :=
  match s₁.oldestKey with
  | none => s₁
  | some k =>
    if k = "" then s₁
    else updateOldestEntry { s₁ with storage := mapDelete s₁.storage k }

/-- `evictOldest`: refresh the hint if invalidated, then delete the hinted
key and recompute the hint. -/
def evictOldest (s : MemoryStorage) : MemoryStorage :=
  evictHinted (if hintValid s then s else updateOldestEntry s)

/-- The result record of `consume`. -/
structure ConsumeResult where
  success : Bool
  remainingPoints : Int
  resetTime : Int
deriving Repr, DecidableEq

/-- The fresh-window branch of `consume` (no entry, or window expired):
evict when at capacity and the key is genuinely new, then install
`{points-1, now+duration*1000, undefined}` and update the hint. -/
def consumeFresh (s : MemoryStorage) (key : String) (points duration now : Int)
    (entryAbsent : Bool) : ConsumeResult × MemoryStorage :=
  let s₁ := if s.maxSize ≤ s.storage.length ∧ entryAbsent = true then evictOldest s else s
  let resetTime := now + duration * 1000
  let newEntry : RateLimitEntry := ⟨points - 1, resetTime, none⟩
  let s₂ := { s₁ with storage := mapSet s₁.storage key newEntry }
  let s₃ :=
    if s₂.oldestKey = none ∨ ltInfinity resetTime s₂.oldestTime = true then
      { s₂ with oldestKey := some key, oldestTime := some resetTime }
    else s₂
  (⟨true, points - 1, resetTime⟩, s₃)

/-- Whether the entry carries a truthy block that has elapsed
(`entry.blockedUntil && entry.blockedUntil <= now`). -/
def blockCleared (e : RateLimitEntry) (now : Int) : Bool :=
  truthyNum e.blockedUntil && decide (e.blockedUntil.getD 0 ≤ now)

/-- The live-entry branch of `consume`: deny while blocked, clear an elapsed
block, then either deny on exhaustion (possibly starting a block) or
decrement.  Entry mutations are written back to the map. -/
def consumeLive (s : MemoryStorage) (key : String) (blockDuration now : Int)
    (e : RateLimitEntry) : ConsumeResult × MemoryStorage :=
  if truthyNum e.blockedUntil = true ∧ now < e.blockedUntil.getD 0 then
    (⟨false, 0, e.blockedUntil.getD 0⟩, s)
  else
    let e₁ := if blockCleared e now then { e with blockedUntil := none } else e
    let s₁ := if blockCleared e now then { s with storage := mapSet s.storage key e₁ } else s
    if e₁.points ≤ 0 then
      if 0 < blockDuration then
        let bu := now + blockDuration * 1000
        (⟨false, 0, bu⟩, { s₁ with storage := mapSet s₁.storage key { e₁ with blockedUntil := some bu } })
      else
        (⟨false, 0, e₁.resetTime⟩, s₁)
    else
      (⟨true, e₁.points - 1, e₁.resetTime⟩,
        { s₁ with storage := mapSet s₁.storage key { e₁ with points := e₁.points - 1 } })

/-- `MemoryStorage.consume`. -/
def consume (s : MemoryStorage) (key : String) (points duration blockDuration now : Int) :
    ConsumeResult × MemoryStorage :=
  match mapGet s.storage key with
  | none => consumeFresh s key points duration now true
  | some e =>
    if e.resetTime ≤ now then consumeFresh s key points duration now false
    else consumeLive s key blockDuration now e

/-- The result record of `getStatus`. -/
structure StatusResult where
  remainingPoints : Int
  resetTime : Int
  isBlocked : Bool
deriving Repr, DecidableEq

/-- `MemoryStorage.getStatus`: a read-only query; the state is returned
unchanged, mirroring the absence of any mutation in the source. -/
def getStatus (s : MemoryStorage) (key : String) (now : Int) :
    Option StatusResult × MemoryStorage :=
  match mapGet s.storage key with
  | none => (none, s)
  | some e =>
    if e.resetTime ≤ now then (none, s)
    else
      let isBlocked := truthyNum e.blockedUntil && decide (now < e.blockedUntil.getD 0)
      (some ⟨e.points,
        if isBlocked && truthyNum e.blockedUntil then e.blockedUntil.getD 0 else e.resetTime,
        isBlocked⟩, s)

/-- `MemoryStorage.delete`. -/
def deleteKey (s : MemoryStorage) (key : String) : MemoryStorage :=
  { s with storage := mapDelete s.storage key }

/-- `MemoryStorage.reset`. -/
def resetStore (s : MemoryStorage) : MemoryStorage :=
  { s with storage := [] }

/-- Whether the periodic sweep removes an entry: window expired and any
block (truthy `blockedUntil`) also elapsed. -/
def expiredEntry (now : Int) (e : RateLimitEntry) : Bool :=
  decide (e.resetTime ≤ now) && (!truthyNum e.blockedUntil || decide (e.blockedUntil.getD 0 ≤ now))

/-- The `cleanup` sweep: drop expired entries, then recompute the hint. -/
def cleanup (s : MemoryStorage) (now : Int) : MemoryStorage :=
  updateOldestEntry { s with storage := s.storage.filter (fun p => !expiredEntry now p.2) }

/-- A store operation, used to describe reachable states. -/
inductive StoreOp
  | consumeOp (key : String) (points duration blockDuration now : Int)
  | deleteOp (key : String)
  | resetOp
  | cleanupOp (now : Int)
deriving Repr

/-- Apply one store operation (keeping only the resulting state). -/
def applyOp (s : MemoryStorage) : StoreOp → MemoryStorage
  | .consumeOp k p d b n => (consume s k p d b n).2
  | .deleteOp k => deleteKey s k
  | .resetOp => resetStore s
  | .cleanupOp n => cleanup s n

/-- Run a sequence of store operations. -/
def runOps : MemoryStorage → List StoreOp → MemoryStorage
  | s, [] => s
  | s, op :: rest => runOps (applyOp s op) rest

/-- Well-formed identifier: every consume uses a non-empty key (identifiers
are `ip:`- or `key:`-prefixed strings, hence non-empty). -/
def keyWfB : StoreOp → Bool
  | .consumeOp k _ _ _ _ => k != ""
  | _ => true

/-- Well-formed budget: every consume passes a points argument of at least 1. -/
def pointsWfB : StoreOp → Bool
  | .consumeOp _ p _ _ _ => decide (1 ≤ p)
  | _ => true

/-! ### String helpers

JS string primitives (`trim`, `split`, `length`, character tests) are
embedded over the character list of the string, so that every definition
evaluates by kernel reduction. -/

/-- The whitespace stripped by `String.prototype.trim` (ASCII subset). -/
def isSpaceChar (c : Char) : Bool := c == ' ' || c == '\t' || c == '\n' || c == '\r'

/-- `trim` on a character list. -/
def trimChars (l : List Char) : List Char :=
  ((l.dropWhile isSpaceChar).reverse.dropWhile isSpaceChar).reverse

/-- JS `s.trim()`. -/
def trimStr (s : String) : String := String.mk (trimChars s.data)

/-- JS `s.length` (all inputs of interest are ASCII). -/
def strLength (s : String) : Nat := s.data.length

/-- JS `s.split(sep)` for a single-character separator, on character lists:
always returns at least one (possibly empty) group. -/
def splitOnChar (sep : Char) : List Char → List (List Char)
  | [] => [[]]
  | c :: rest =>
    let r := splitOnChar sep rest
    if c == sep then [] :: r
    else
      match r with
      | [] => [[c]]
      | g :: gs => (c :: g) :: gs

/-- JS `forwardedFor.split(',')`. -/
def splitComma (s : String) : List String := (splitOnChar ',' s.data).map String.mk

/-! ### node:net IP validators

`isIPv4` and `isIPv6` come from `node:net`, an external library the plugin
imports; they are modelled here from node's documented syntax rules. -/

/-- One dotted-decimal octet: 1-3 digits, value at most 255, no leading zero. -/
def validOctet (l : List Char) : Bool :=
  !l.isEmpty && decide (l.length ≤ 3) && l.all Char.isDigit &&
    (decide (l.length = 1) || !(l.headD '0' == '0')) &&
    decide (l.foldl (fun acc c => acc * 10 + (c.toNat - 48)) 0 ≤ 255)

/-- Modelled from node:net `isIPv4`: exactly four valid dotted octets. -/
def isIPv4 (s : String) : Bool :=
  let parts := splitOnChar '.' s.data
  decide (parts.length = 4) && parts.all validOctet

/-- Hexadecimal digit. -/
def isHexDigitChar (c : Char) : Bool :=
  c.isDigit || (decide ('a' ≤ c) && decide (c ≤ 'f')) || (decide ('A' ≤ c) && decide (c ≤ 'F'))

/-- One 16-bit IPv6 group: 1-4 hex digits. -/
def validHexGroup (l : List Char) : Bool :=
  !l.isEmpty && decide (l.length ≤ 4) && l.all isHexDigitChar

/-- Split a character list at the first `::`, when present. -/
def splitDoubleColon : List Char → Option (List Char × List Char)
  | [] => none
  | ':' :: ':' :: rest => some ([], rest)
  | c :: rest => (splitDoubleColon rest).map (fun p => (c :: p.1, p.2))

/-- Whether a character list contains `::`. -/
def containsDoubleColon : List Char → Bool
  | [] => false
  | ':' :: ':' :: _ => true
  | _ :: rest => containsDoubleColon rest

/-- Colon-separated groups of a (possibly empty) side of a `::`. -/
def colonGroups (l : List Char) : List (List Char) :=
  if l.isEmpty then [] else splitOnChar ':' l

/-- Effective group weight of a tail: the last group may be an embedded
IPv4 literal (worth two groups); returns the leading groups and the weight. -/
def ipv6TailInfo (gs : List (List Char)) : Option (List (List Char) × Nat) :=
  match gs.getLast? with
  | none => some ([], 0)
  | some g =>
    if isIPv4 (String.mk g) then some (gs.dropLast, 2)
    else if validHexGroup g then some (gs.dropLast, 1)
    else none

/-- Modelled from node:net `isIPv6` (simplified): eight 16-bit groups, a
single `::` compressing at least one group, and an optional trailing
embedded IPv4 literal. -/
def isIPv6 (s : String) : Bool :=
  match splitDoubleColon s.data with
  | some (a, b) =>
    if containsDoubleColon b then false
    else
      let ga := colonGroups a
      match ipv6TailInfo (colonGroups b) with
      | none => false
      | some (gbInit, w) =>
        ga.all validHexGroup && gbInit.all validHexGroup &&
          decide (ga.length + gbInit.length + w ≤ 7)
  | none =>
    match ipv6TailInfo (colonGroups s.data) with
    | none => false
    | some (gsInit, w) =>
      !s.data.isEmpty && gsInit.all validHexGroup && decide (gsInit.length + w = 8)

/-- `isValidIp`: IPv4 or IPv6. -/
def isValidIp (ip : String) : Bool := isIPv4 ip || isIPv6 ip

/-! ### Identifier resolution -/

/-- The IP-mode option bag. -/
structure RatliIpOptions where
  allowList : List String
  blockList : List String
  allowXForwardedFor : Bool
  allowXForwardedForFrom : List String
deriving Repr, DecidableEq

/-- The key-mode option bag.  Optional fields embed JS `undefined`; the
source reads them through `||` and `??` fallbacks. -/
structure RatliKeyOptions where
  allowList : List String
  blockList : List String
  headerName : Option String
  queryParamName : Option String
  fallbackToIpOnMissingKey : Option Bool
deriving Repr, DecidableEq

/-- The `ip` configuration slot: a boolean or an option object. -/
inductive IpSetting
  | flag (b : Bool)
  | opts (o : RatliIpOptions)
deriving Repr, DecidableEq

/-- The `key` configuration slot: a boolean or an option object. -/
inductive KeySetting
  | flag (b : Bool)
  | opts (o : RatliKeyOptions)
deriving Repr, DecidableEq

/-- JS truthiness of the `ip` slot (an object is truthy). -/
def IpSetting.truthyCfg : IpSetting → Bool
  | .flag b => b
  | .opts _ => true

/-- The empty option object used when `ip` is a boolean (`typeof === 'object' ? ip : {}`:
undefined fields read as absent lists and a falsy flag). -/
def emptyIpOptions : RatliIpOptions := ⟨[], [], false, []⟩

/-- `typeof mergedOptions.ip === 'object' ? mergedOptions.ip : {}`. -/
def IpSetting.toOptions : IpSetting → RatliIpOptions
  | .opts o => o
  | .flag _ => emptyIpOptions

/-- JS truthiness of the `key` slot. -/
def KeySetting.truthyCfg : KeySetting → Bool
  | .flag b => b
  | .opts _ => true

/-- `typeof mergedOptions.key === 'object' ? mergedOptions.key : undefined`. -/
def KeySetting.objOptions : KeySetting → Option RatliKeyOptions
  | .opts o => some o
  | .flag _ => none

/-- The empty key-option object used when `key` is a boolean. -/
def emptyKeyOptions : RatliKeyOptions := ⟨[], [], none, none, none⟩

/-- `typeof mergedOptions.key === 'object' ? mergedOptions.key : {}`. -/
def KeySetting.toOptions (k : KeySetting) : RatliKeyOptions :=
  k.objOptions.getD emptyKeyOptions

/-- The request attributes the resolver consults: direct remote address,
header lookup, and query-parameter lookup. -/
structure Request where
  remoteAddress : String
  headers : String → Option String
  query : String → Option String

/-- `v || d` for an optional string (undefined and `""` fall back). -/
def strOr (v : Option String) (d : String) : String :=
  match v with
  | none => d
  | some s => if s = "" then d else s

def API_KEY_MAX_LENGTH : Nat := 512

def DEFAULT_HEADER_NAME : String := "x-api-key"

def DEFAULT_QUERY_PARAM_NAME : String := "api_key"

def X_FORWARDED_FOR_HEADER : String := "x-forwarded-for"

/-- `sanitizeApiKey`: trim, then require non-empty, at most 512 characters,
and only `[a-zA-Z0-9._-]` characters. -/
def isApiKeyChar (c : Char) : Bool :=
  c.isAlpha || c.isDigit || c == '.' || c == '_' || c == '-'

/-- `sanitizeApiKey` returns the trimmed key, or `null` on any violation. -/
def sanitizeApiKey (key : String) : Option String :=
  if key = "" then none
  else
    let trimmed := trimStr key
    if strLength trimmed = 0 ∨ API_KEY_MAX_LENGTH < strLength trimmed then none
    else if !(trimmed.data.all isApiKeyChar) then none
    else some trimmed

/-- The outcome of `checkLists`. -/
inductive ListDecision
  | allow
  | block
  | cont
deriving Repr, DecidableEq

/-- `checkLists`: allow-list first, then block-list (absent lists embed as `[]`). -/
def checkLists (value : String) (allowList blockList : List String) : ListDecision :=
  if allowList ≠ [] ∧ allowList.contains value then .allow
  else if blockList ≠ [] ∧ blockList.contains value then .block
  else .cont

/-- `extractForwardedIps`: split on commas, trim, keep syntactically valid IPs. -/
def extractForwardedIps (forwardedFor : String) : List String :=
  ((splitComma forwardedFor).map trimStr).filter isValidIp

/-- `shouldTrustProxy`: the trusted-proxy list is non-empty and contains the
direct remote address. -/
def shouldTrustProxy (remoteAddress : String) (ipOptions : RatliIpOptions) : Bool :=
  !ipOptions.allowXForwardedForFrom.isEmpty &&
    ipOptions.allowXForwardedForFrom.contains remoteAddress

/-- The descending index loop of `findClientIpFromChain`, over the reversed
chain: the first entry (from the right) not in the trusted list. -/
def findFromRight (trustedProxies : List String) : List String → Option String
  | [] => none
  | ip :: rest =>
    if trustedProxies.contains ip then findFromRight trustedProxies rest else some ip

/-- `findClientIpFromChain`: walk from the rightmost hop backward, skipping
trusted proxies; fall back to the leftmost hop. -/
def findClientIpFromChain (ips trustedProxies : List String) : String :=
  (findFromRight trustedProxies ips.reverse).getD (ips.headD "")

/-- `getClientIp`: use the forwarded chain only when the header feature is
on, a non-empty header is present, some entries validate, and the direct
remote address is a trusted proxy; otherwise the direct remote address. -/
def getClientIp (req : Request) (ipOptions : RatliIpOptions) : String :=
  if !ipOptions.allowXForwardedFor then req.remoteAddress
  else
    match req.headers X_FORWARDED_FOR_HEADER with
    | none => req.remoteAddress
    | some forwardedFor =>
      if forwardedFor = "" then req.remoteAddress
      else
        let ips := extractForwardedIps forwardedFor
        if ips = [] then req.remoteAddress
        else if !shouldTrustProxy req.remoteAddress ipOptions then req.remoteAddress
        else findClientIpFromChain ips ipOptions.allowXForwardedForFrom

/-- The outcome of identifier resolution.  `bypass` embeds `null` (allow-listed),
`noIdentifier` embeds `undefined`, and the blocked constructors embed the
thrown `BlockedIpError` / `BlockedApiKeyError`. -/
inductive ResolveOutcome
  | bypass
  | noIdentifier
  | ident (s : String)
  | blockedIp (ip : String)
  | blockedKey
deriving Repr, DecidableEq

/-- `checkIpIdentifier`: resolve the client IP, then apply the lists. -/
def checkIpIdentifier (ipCfg : IpSetting) (req : Request) : ResolveOutcome :=
  let ipOptions := ipCfg.toOptions
  let clientIp := getClientIp req ipOptions
  match checkLists clientIp ipOptions.allowList ipOptions.blockList with
  | .allow => .bypass
  | .block => .blockedIp clientIp
  | .cont => .ident ("ip:" ++ clientIp)

/-- The outcome of `checkKeyIdentifier` (`bypass` embeds `null`, `missing`
embeds `undefined`, `blocked` embeds the thrown `BlockedApiKeyError`). -/
inductive KeyCheck
  | bypass
  | missing
  | blocked
  | ident (s : String)
deriving Repr, DecidableEq

/-- The candidate API key: the configured header, else (when that is falsy
and the query parameter is truthy) the configured query parameter. -/
def apiKeyCandidate (keyOptions : RatliKeyOptions) (req : Request) : Option String :=
  let headerName := strOr keyOptions.headerName DEFAULT_HEADER_NAME
  let queryParamName := strOr keyOptions.queryParamName DEFAULT_QUERY_PARAM_NAME
  let a := req.headers headerName
  if !truthyStr a && truthyStr (req.query queryParamName) then req.query queryParamName else a

/-- `checkKeyIdentifier`: no truthy candidate is "missing"; a candidate that
fails sanitization is "missing" when it trims to empty and blocked
otherwise; a sanitized key goes through the lists. -/
def checkKeyIdentifier (keyCfg : KeySetting) (req : Request) : KeyCheck :=
  let keyOptions := keyCfg.toOptions
  let apiKey := apiKeyCandidate keyOptions req
  if !truthyStr apiKey then .missing
  else
    let k := apiKey.getD ""
    match sanitizeApiKey k with
    | none => if trimStr k = "" then .missing else .blocked
    | some sanitizedKey =>
      match checkLists sanitizedKey keyOptions.allowList keyOptions.blockList with
      | .allow => .bypass
      | .block => .blocked
      | .cont => .ident ("key:" ++ sanitizedKey)

/-- `getClientIdentifier`: IP mode when truthy; else key mode when truthy;
a missing key falls through to the IP-fallback guard. -/
def getClientIdentifier (ipCfg : IpSetting) (keyCfg : KeySetting) (req : Request) :
    ResolveOutcome :=
  if ipCfg.truthyCfg then checkIpIdentifier ipCfg req
  else
    let keyStep : Option KeyCheck :=
      if keyCfg.truthyCfg then some (checkKeyIdentifier keyCfg req) else none
    match keyStep with
    | some .bypass => .bypass
    | some .blocked => .blockedKey
    | some (.ident s) => .ident s
    | _ =>
      let keyOptions := keyCfg.objOptions
      let allowFallback := (keyOptions.bind (fun o => o.fallbackToIpOnMissingKey)).getD true
      if ipCfg ≠ IpSetting.flag false ∧ allowFallback = true then
        .ident ("ip:" ++ req.remoteAddress)
      else .noIdentifier

/-! ### Deny handlers and callback isolation -/

/-- One `server.log(['ratli', 'error'], ...)` event. -/
structure LogEvent where
  tags : List String
  errMsg : String
deriving Repr, DecidableEq

/-- A notification callback: what `callback(identifier, request)` does on
this invocation (normal return, or a thrown error message). -/
abbrev Callback := String → Request → Except String Unit

/-- `invokeCallback`: run the callback; a thrown error is caught and turned
into a log event instead of propagating. -/
def invokeCallback (callback : Callback) (identifier : String) (req : Request) :
    List LogEvent :=
  match callback identifier req with
  | .ok _ => []
  | .error e => [⟨["ratli", "error"], e⟩]

/-- The response payload and headers produced by a deny handler. -/
structure DenyResponse where
  statusCode : Int
  error : String
  message : String
  headers : List (String × String)
deriving Repr, DecidableEq

/-- `Math.floor(a / b)`. -/
def floorDiv (a b : Int) : Int := Int.fdiv a b

/-- `Math.ceil(a / b)`. -/
def ceilDiv (a b : Int) : Int := -Int.fdiv (-a) b

/-- `handleRateLimitExceeded`: invoke the configured `onRateLimit` callback
(best effort), then build the 429 response from the consume result alone. -/
def handleRateLimitExceeded (onRateLimit : Option Callback) (identifier : String)
    (req : Request) (resultResetTime points now : Int) : DenyResponse × List LogEvent :=
  let logs :=
    match onRateLimit with
    | some cb => invokeCallback cb identifier req
    | none => []
  let retryAfter := ceilDiv (resultResetTime - now) 1000
  (⟨429, "Too Many Requests", "Rate limit exceeded",
    [("RateLimit-Limit", toString points),
     ("RateLimit-Remaining", "0"),
     ("RateLimit-Reset", toString (floorDiv resultResetTime 1000)),
     ("Retry-After", toString retryAfter)]⟩, logs)

/-- The error a blocked resolution carries. -/
inductive BlockedError
  | byIp (ip : String)
  | byKey
deriving Repr, DecidableEq

/-- The `message` of the corresponding error class. -/
def blockedErrorMessage : BlockedError → String
  | .byIp ip => "Blocked IP address: " ++ ip
  | .byKey => "Blocked API key"

/-- `handleBlockedClient`: invoke the configured `onBlock` callback (best
effort), then build the fixed 403 response. -/
def handleBlockedClient (onBlock : Option Callback) (err : BlockedError) (req : Request) :
    DenyResponse × List LogEvent :=
  let logs :=
    match onBlock with
    | some cb =>
      let identifier :=
        match err with
        | .byIp _ => blockedErrorMessage err
        | .byKey => "blocked-key"
      invokeCallback cb identifier req
    | none => []
  (⟨403, "Forbidden", "Access forbidden", []⟩, logs)

/-! ## Invariants and concrete states used by the theorems -/

/-- Every stored key is non-empty. -/
def goodKeysInv (s : MemoryStorage) : Prop := ∀ p ∈ s.storage, p.1 ≠ ""

/-- The size invariant: non-empty keys, size bounded by a positive capacity. -/
def sizeInv (s : MemoryStorage) : Prop :=
  goodKeysInv s ∧ s.storage.length ≤ s.maxSize ∧ 1 ≤ s.maxSize

/-- Every stored entry has non-negative points. -/
def pointsInvP (s : MemoryStorage) : Prop := ∀ p ∈ s.storage, 0 ≤ p.2.points

/-- A small store with one live, unblocked, exhausted entry. -/
def demoLiveStore : MemoryStorage :=
  { storage := [("k", ⟨0, 10000, none⟩)], maxSize := 10,
    oldestKey := some "k", oldestTime := some 10000 }

/-- A store with a live blocked entry. -/
def demoBlockedStore : MemoryStorage :=
  { storage := [("k", ⟨0, 10000, some 7000⟩)], maxSize := 10,
    oldestKey := some "k", oldestTime := some 10000 }

/-- After one consume at time 0 with one point and a one-second window. -/
def c1s₁ : MemoryStorage := (consume (emptyStorage 10000) "k" 1 1 10 0).2

/-- After a second consume at time 500: exhausted, blocked until 10500. -/
def c1s₂ : MemoryStorage := (consume c1s₁ "k" 1 1 10 500).2

/-- Capacity-2 run: consume `A` at time 0 with a one-second window. -/
def c2s₁ : MemoryStorage := (consume (emptyStorage 2) "A" 1 1 0 0).2

/-- Then consume `B` at time 0 with a 100-second window. -/
def c2s₂ : MemoryStorage := (consume c2s₁ "B" 1 100 0 0).2

/-- Then refresh `A` at time 2000 (its window expired): the oldest-entry
hint still names `A` with the stale time 1000. -/
def c2s₃ : MemoryStorage := (consume c2s₂ "A" 1 100 0 2000).2

/-- Then consume the new key `C` at capacity: eviction fires. -/
def c2s₄ : MemoryStorage := (consume c2s₃ "C" 1 1 0 2000).2

/-- The operation list behind the `c2` run. -/
def c2ops : List StoreOp :=
  [.consumeOp "A" 1 1 0 0, .consumeOp "B" 1 100 0 0,
   .consumeOp "A" 1 100 0 2000, .consumeOp "C" 1 1 0 2000]

/-- A request with no headers and no query parameters. -/
def bareRequest : Request := ⟨"1.2.3.4", fun _ => none, fun _ => none⟩

/-- The request of spec example 8: remote `10.0.0.1`, forwarded chain
`1.2.3.4, 10.0.0.1`. -/
def chainRequest : Request :=
  ⟨"10.0.0.1",
    fun n => if n = "x-forwarded-for" then some "1.2.3.4, 10.0.0.1" else none,
    fun _ => none⟩

/-- The IP options of spec example 8: trust the proxy `10.0.0.1`. -/
def chainIpOptions : RatliIpOptions := ⟨[], [], true, ["10.0.0.1"]⟩

/-- A request carrying the api key `"ab cd"` (contains a space). -/
def spacedKeyRequest : Request :=
  ⟨"9.9.9.9", fun n => if n = "x-api-key" then some "ab cd" else none, fun _ => none⟩

/-- The spec-side description of the chain walk: the rightmost entry not in
the trusted list, or the leftmost entry when every hop is trusted. -/
def walkChainFromSpec (ips trusted : List String) : String :=
  match ips.reverse.find? (fun ip => !trusted.contains ip) with
  | some ip => ip
  | none => ips.headD ""

/-! ## Basic lemmas about the embedded map -/

theorem mapGet_mapSet_self (m : StorageMap) (k : String) (v : RateLimitEntry) :
    mapGet (mapSet m k v) k = some v := by
  induction m with
  | nil => simp [mapSet, mapGet]
  | cons p rest ih =>
    obtain ⟨k₁, v₁⟩ := p
    by_cases h : k₁ = k
    · simp [mapSet, h, mapGet]
    · simp [mapSet, h, mapGet, ih]

theorem mapGet_mapSet_ne (m : StorageMap) (k k₂ : String) (v : RateLimitEntry)
    (h : k₂ ≠ k) : mapGet (mapSet m k v) k₂ = mapGet m k₂ := by
  induction m with
  | nil => simp [mapSet, mapGet, Ne.symm h]
  | cons p rest ih =>
    obtain ⟨k₁, v₁⟩ := p
    by_cases h₁ : k₁ = k
    · simp [mapSet, h₁, mapGet, Ne.symm h]
    · simp [mapSet, h₁, mapGet, ih]

theorem length_mapSet_isSome (m : StorageMap) (k : String) (v : RateLimitEntry)
    (h : (mapGet m k).isSome = true) : (mapSet m k v).length = m.length := by
  induction m with
  | nil => simp [mapGet] at h
  | cons p rest ih =>
    obtain ⟨k₁, v₁⟩ := p
    by_cases h₁ : k₁ = k
    · simp [mapSet, h₁]
    · simp only [mapGet, if_neg h₁] at h
      simp [mapSet, h₁, ih h]

theorem length_mapSet_none (m : StorageMap) (k : String) (v : RateLimitEntry)
    (h : mapGet m k = none) : (mapSet m k v).length = m.length + 1 := by
  induction m with
  | nil => simp [mapSet]
  | cons p rest ih =>
    obtain ⟨k₁, v₁⟩ := p
    by_cases h₁ : k₁ = k
    · simp [mapGet, h₁] at h
    · simp only [mapGet, if_neg h₁] at h
      simp [mapSet, h₁, ih h]

theorem length_mapDelete_le (m : StorageMap) (k : String) :
    (mapDelete m k).length ≤ m.length := by
  induction m with
  | nil => simp [mapDelete]
  | cons p rest ih =>
    obtain ⟨k₁, v₁⟩ := p
    by_cases h₁ : k₁ = k
    · simp [mapDelete, h₁]
    · simp only [mapDelete, if_neg h₁, List.length_cons]
      omega

theorem length_mapDelete_isSome (m : StorageMap) (k : String)
    (h : (mapGet m k).isSome = true) : (mapDelete m k).length + 1 = m.length := by
  induction m with
  | nil => simp [mapGet] at h
  | cons p rest ih =>
    obtain ⟨k₁, v₁⟩ := p
    by_cases h₁ : k₁ = k
    · simp [mapDelete, h₁]
    · simp only [mapGet, if_neg h₁] at h
      simp [mapDelete, h₁, ih h]

theorem mapGet_mapDelete_none (m : StorageMap) (k k₂ : String)
    (h : mapGet m k = none) : mapGet (mapDelete m k₂) k = none := by
  induction m with
  | nil => simp [mapDelete, mapGet]
  | cons p rest ih =>
    obtain ⟨k₁, v₁⟩ := p
    by_cases h₁ : k₁ = k
    · simp [mapGet, h₁] at h
    · simp only [mapGet, if_neg h₁] at h
      by_cases h₂ : k₁ = k₂
      · simp [mapDelete, h₂, h]
      · simp [mapDelete, h₂, mapGet, h₁, ih h]

theorem mem_of_mapGet (m : StorageMap) (k : String) (e : RateLimitEntry)
    (h : mapGet m k = some e) : (k, e) ∈ m := by
  induction m with
  | nil => simp [mapGet] at h
  | cons p rest ih =>
    obtain ⟨k₁, v₁⟩ := p
    by_cases h₁ : k₁ = k
    · simp only [mapGet, if_pos h₁] at h
      injection h with h₂
      subst h₁
      subst h₂
      exact List.mem_cons_self _ _
    · simp only [mapGet, if_neg h₁] at h
      exact List.mem_cons_of_mem _ (ih h)

theorem isSome_mapGet_of_mem (m : StorageMap) (k : String) (e : RateLimitEntry)
    (h : (k, e) ∈ m) : (mapGet m k).isSome = true := by
  induction m with
  | nil => simp at h
  | cons p rest ih =>
    obtain ⟨k₁, v₁⟩ := p
    rcases List.mem_cons.mp h with h₀ | h₀
    · cases h₀
      simp [mapGet]
    · by_cases h₁ : k₁ = k
      · simp [mapGet, h₁]
      · simp [mapGet, h₁, ih h₀]

theorem mem_mapSet (m : StorageMap) (k : String) (v : RateLimitEntry) :
    ∀ p ∈ mapSet m k v, p ∈ m ∨ p = (k, v) := by
  induction m with
  | nil => simp [mapSet]
  | cons q rest ih =>
    obtain ⟨k₁, v₁⟩ := q
    intro p hp
    by_cases h₁ : k₁ = k
    · simp only [mapSet, if_pos h₁] at hp
      rcases List.mem_cons.mp hp with h₀ | h₀
      · exact Or.inr h₀
      · exact Or.inl (List.mem_cons_of_mem _ h₀)
    · simp only [mapSet, if_neg h₁] at hp
      rcases List.mem_cons.mp hp with h₀ | h₀
      · exact Or.inl (by simp [h₀])
      · rcases ih p h₀ with h₂ | h₂
        · exact Or.inl (List.mem_cons_of_mem _ h₂)
        · exact Or.inr h₂

theorem mem_mapDelete (m : StorageMap) (k : String) :
    ∀ p ∈ mapDelete m k, p ∈ m := by
  induction m with
  | nil => simp [mapDelete]
  | cons q rest ih =>
    obtain ⟨k₁, v₁⟩ := q
    intro p hp
    by_cases h₁ : k₁ = k
    · simp only [mapDelete, if_pos h₁] at hp
      exact List.mem_cons_of_mem _ hp
    · simp only [mapDelete, if_neg h₁] at hp
      rcases List.mem_cons.mp hp with h₀ | h₀
      · simp [h₀]
      · exact List.mem_cons_of_mem _ (ih p h₀)

/-! ## Lemmas about the eviction hint machinery -/

theorem scanOldest_isSome (m : StorageMap) :
    ∀ (k : String) (t : Option Int), (scanOldest m (some k) t).1.isSome = true := by
  induction m with
  | nil => intro k t; rfl
  | cons p rest ih =>
    intro k t
    obtain ⟨key, e⟩ := p
    simp only [scanOldest]
    split
    · exact ih key _
    · exact ih k t

theorem scanOldest_key_mem (m : StorageMap) :
    ∀ (k₀ : Option String) (t₀ : Option Int) (k : String),
      (scanOldest m k₀ t₀).1 = some k → k₀ = some k ∨ ∃ e, (k, e) ∈ m := by
  induction m with
  | nil => intro k₀ t₀ k h; exact Or.inl h
  | cons p rest ih =>
    intro k₀ t₀ k h
    obtain ⟨key, e⟩ := p
    simp only [scanOldest] at h
    split at h
    · rcases ih _ _ _ h with h₀ | h₀
      · injection h₀ with h₁
        exact Or.inr ⟨e, by simp [h₁]⟩
      · obtain ⟨e₂, he₂⟩ := h₀
        exact Or.inr ⟨e₂, List.mem_cons_of_mem _ he₂⟩
    · rcases ih _ _ _ h with h₀ | h₀
      · exact Or.inl h₀
      · obtain ⟨e₂, he₂⟩ := h₀
        exact Or.inr ⟨e₂, List.mem_cons_of_mem _ he₂⟩

theorem updateOldestEntry_storage (s : MemoryStorage) :
    (updateOldestEntry s).storage = s.storage := by
  unfold updateOldestEntry
  split <;> rfl

theorem updateOldestEntry_maxSize (s : MemoryStorage) :
    (updateOldestEntry s).maxSize = s.maxSize := by
  unfold updateOldestEntry
  split <;> rfl

theorem updateOldestEntry_key (s : MemoryStorage) (hne : s.storage ≠ []) :
    ∃ k, (updateOldestEntry s).oldestKey = some k ∧ ∃ e, (k, e) ∈ s.storage := by
  unfold updateOldestEntry
  rw [if_neg hne]
  show ∃ k, (scanOldest s.storage none none).1 = some k ∧ _
  obtain ⟨⟨key, e⟩, rest, hrest⟩ : ∃ p rest, s.storage = p :: rest := by
    cases hs : s.storage with
    | nil => exact absurd hs hne
    | cons p rest => exact ⟨p, rest, rfl⟩
  rw [hrest]
  simp only [scanOldest, ltInfinity, if_pos]
  obtain ⟨k, hk⟩ := Option.isSome_iff_exists.mp (scanOldest_isSome rest key (some e.resetTime))
  refine ⟨k, hk, ?_⟩
  rcases scanOldest_key_mem rest _ _ _ hk with h₀ | h₀
  · injection h₀ with h₁
    exact ⟨e, by simp [h₁]⟩
  · obtain ⟨e₂, he₂⟩ := h₀
    exact ⟨e₂, List.mem_cons_of_mem _ he₂⟩

theorem hintValid_some (s : MemoryStorage) (h : hintValid s = true) :
    ∃ k, s.oldestKey = some k ∧ (mapGet s.storage k).isSome = true := by
  unfold hintValid at h
  cases hk : s.oldestKey with
  | none => rw [hk] at h; exact absurd h (by simp)
  | some k => rw [hk] at h; exact ⟨k, rfl, h⟩

theorem evictHinted_maxSize (s : MemoryStorage) :
    (evictHinted s).maxSize = s.maxSize := by
  unfold evictHinted
  cases s.oldestKey with
  | none => rfl
  | some k =>
    by_cases h : k = ""
    · simp [h]
    · simp [h, updateOldestEntry_maxSize]

theorem evictOldest_maxSize (s : MemoryStorage) :
    (evictOldest s).maxSize = s.maxSize := by
  unfold evictOldest
  split
  · exact evictHinted_maxSize s
  · rw [evictHinted_maxSize, updateOldestEntry_maxSize]

theorem evictHinted_storage_cases (s : MemoryStorage) :
    (evictHinted s).storage = s.storage ∨
      ∃ k, (evictHinted s).storage = mapDelete s.storage k := by
  unfold evictHinted
  cases s.oldestKey with
  | none => exact Or.inl rfl
  | some k =>
    by_cases h : k = ""
    · simp [h]
    · simp only [h, if_neg, ite_false]
      exact Or.inr ⟨k, by rw [updateOldestEntry_storage]⟩

theorem evictOldest_storage_cases (s : MemoryStorage) :
    (evictOldest s).storage = s.storage ∨
      ∃ k, (evictOldest s).storage = mapDelete s.storage k := by
  unfold evictOldest
  split
  · exact evictHinted_storage_cases s
  · rcases evictHinted_storage_cases (updateOldestEntry s) with h₀ | ⟨k, hk⟩
    · exact Or.inl (by rw [h₀, updateOldestEntry_storage])
    · exact Or.inr ⟨k, by rw [hk, updateOldestEntry_storage]⟩

theorem evictOldest_mapGet_none (s : MemoryStorage) (k : String)
    (h : mapGet s.storage k = none) : mapGet (evictOldest s).storage k = none := by
  rcases evictOldest_storage_cases s with h₀ | ⟨k₂, hk₂⟩
  · rw [h₀]; exact h
  · rw [hk₂]; exact mapGet_mapDelete_none _ _ _ h

theorem evictOldest_length (s : MemoryStorage)
    (hg : ∀ p ∈ s.storage, p.1 ≠ "") (hne : s.storage ≠ []) :
    (evictOldest s).storage.length + 1 = s.storage.length := by
  have key_ne : ∀ k, (mapGet s.storage k).isSome = true → k ≠ "" := by
    intro k hk
    obtain ⟨e, he⟩ := Option.isSome_iff_exists.mp hk
    exact hg (k, e) (mem_of_mapGet _ _ _ he)
  unfold evictOldest
  by_cases hv : hintValid s = true
  · rw [if_pos hv]
    obtain ⟨k, hk, hh⟩ := hintValid_some s hv
    unfold evictHinted
    rw [hk]
    simp only [key_ne k hh, if_neg, ite_false]
    rw [updateOldestEntry_storage]
    exact length_mapDelete_isSome _ _ hh
  · rw [if_neg hv]
    obtain ⟨k, hk, e, he⟩ := updateOldestEntry_key s hne
    have hh : (mapGet s.storage k).isSome = true := isSome_mapGet_of_mem _ _ _ he
    unfold evictHinted
    rw [hk]
    simp only [key_ne k hh, if_neg, ite_false]
    rw [updateOldestEntry_storage]
    show (mapDelete (updateOldestEntry s).storage k).length + 1 = _
    rw [updateOldestEntry_storage]
    exact length_mapDelete_isSome _ _ hh

/-! ## Structural lemmas about `consume` -/

theorem consumeFresh_result (s : MemoryStorage) (key : String) (p d n : Int) (abs : Bool) :
    (consumeFresh s key p d n abs).1 = ⟨true, p - 1, n + d * 1000⟩ := rfl

theorem consumeFresh_storage (s : MemoryStorage) (key : String) (p d n : Int) (abs : Bool) :
    (consumeFresh s key p d n abs).2.storage =
      mapSet (if s.maxSize ≤ s.storage.length ∧ abs = true then evictOldest s else s).storage
        key ⟨p - 1, n + d * 1000, none⟩ := by
  unfold consumeFresh
  dsimp only
  split <;> split <;> rfl

theorem consumeFresh_maxSize (s : MemoryStorage) (key : String) (p d n : Int) (abs : Bool) :
    (consumeFresh s key p d n abs).2.maxSize = s.maxSize := by
  unfold consumeFresh
  dsimp only
  split <;> split <;> simp [evictOldest_maxSize]

theorem clearedEntry_points (e : RateLimitEntry) (now : Int) :
    (if blockCleared e now then { e with blockedUntil := none } else e).points = e.points := by
  split <;> rfl

theorem clearedEntry_resetTime (e : RateLimitEntry) (now : Int) :
    (if blockCleared e now then { e with blockedUntil := none } else e).resetTime =
      e.resetTime := by
  split <;> rfl

theorem consumeLive_maxSize (s : MemoryStorage) (key : String) (bd now : Int)
    (e : RateLimitEntry) : (consumeLive s key bd now e).2.maxSize = s.maxSize := by
  unfold consumeLive
  split
  · rfl
  · dsimp only
    repeat' split
    all_goals rfl

theorem consume_maxSize (s : MemoryStorage) (key : String) (p d bd now : Int) :
    (consume s key p d bd now).2.maxSize = s.maxSize := by
  unfold consume
  cases mapGet s.storage key with
  | none => exact consumeFresh_maxSize s key p d now true
  | some e =>
    dsimp only
    split
    · exact consumeFresh_maxSize s key p d now false
    · exact consumeLive_maxSize s key bd now e

theorem consume_eq_fresh_of_none (s : MemoryStorage) (key : String) (pts dur bd now : Int)
    (h : mapGet s.storage key = none) :
    consume s key pts dur bd now = consumeFresh s key pts dur now true := by
  unfold consume
  rw [h]

theorem consume_eq_fresh_of_expired (s : MemoryStorage) (key : String) (pts dur bd now : Int)
    (e : RateLimitEntry) (h : mapGet s.storage key = some e) (hle : e.resetTime ≤ now) :
    consume s key pts dur bd now = consumeFresh s key pts dur now false := by
  unfold consume
  rw [h]
  dsimp only
  rw [if_pos hle]

theorem consume_eq_live (s : MemoryStorage) (key : String) (pts dur bd now : Int)
    (e : RateLimitEntry) (h : mapGet s.storage key = some e) (hlt : now < e.resetTime) :
    consume s key pts dur bd now = consumeLive s key bd now e := by
  unfold consume
  rw [h]
  dsimp only
  rw [if_neg (by omega)]

/-! ## Claim theorems -/

/-- Claim C4: for every identifier with no current entry (first-ever consume,
or prior entry expired: `resetTime <= now`), `consume` with `points >= 1` and
`durationSec >= 1` succeeds and installs the entry
`{points: points-1, resetTime: now + durationSec*1000, blockedUntil: none}`,
returning `success = true`, `remainingPoints = points - 1` and
`resetTime = now + durationSec*1000`. -/
theorem consume_fresh_window_spec (s : MemoryStorage) (key : String) (pts dur bd now : Int)
    (hfresh : mapGet s.storage key = none ∨
      ∃ e, mapGet s.storage key = some e ∧ e.resetTime ≤ now)
    (hpts : 1 ≤ pts) (hdur : 1 ≤ dur) :
    (consume s key pts dur bd now).1 = ⟨true, pts - 1, now + dur * 1000⟩ ∧
    mapGet (consume s key pts dur bd now).2.storage key =
      some ⟨pts - 1, now + dur * 1000, none⟩ := by
  rcases hfresh with h | ⟨e, he, hle⟩
  · rw [consume_eq_fresh_of_none s key pts dur bd now h]
    exact ⟨consumeFresh_result s key pts dur now true,
      by rw [consumeFresh_storage]; exact mapGet_mapSet_self _ _ _⟩
  · rw [consume_eq_fresh_of_expired s key pts dur bd now e he hle]
    exact ⟨consumeFresh_result s key pts dur now false,
      by rw [consumeFresh_storage]; exact mapGet_mapSet_self _ _ _⟩

/-- Witness for C4 at a concrete first-ever consume. -/
theorem consume_fresh_window_spec_witness :
    (consume (emptyStorage 10000) "ip:1.2.3.4" 100 60 300 5000).1 =
        ⟨true, 100 - 1, 5000 + 60 * 1000⟩ ∧
      mapGet (consume (emptyStorage 10000) "ip:1.2.3.4" 100 60 300 5000).2.storage
        "ip:1.2.3.4" = some ⟨100 - 1, 5000 + 60 * 1000, none⟩ :=
  consume_fresh_window_spec (emptyStorage 10000) "ip:1.2.3.4" 100 60 300 5000
    (Or.inl rfl) (by norm_num) (by norm_num)

/-- Claim C5: on a live, unblocked entry, `consume` denies on exhaustion
(`points <= 0`), starting a block of `blockDurationSec` seconds when that is
positive (reporting `now + blockDurationSec*1000`) and otherwise reporting
the unchanged window `resetTime`; with `points > 0` it decrements and
succeeds with the decremented value and the unchanged `resetTime`. -/
theorem consume_live_entry_spec (s : MemoryStorage) (key : String) (pts dur bd now : Int)
    (e : RateLimitEntry)
    (hget : mapGet s.storage key = some e)
    (hlive : now < e.resetTime)
    (hnoblock : ∀ b, e.blockedUntil = some b → b ≤ now) :
    ((e.points ≤ 0 ∧ 0 < bd) →
      (consume s key pts dur bd now).1 = ⟨false, 0, now + bd * 1000⟩ ∧
      ∃ e₂, mapGet (consume s key pts dur bd now).2.storage key = some e₂ ∧
        e₂.points = e.points ∧ e₂.resetTime = e.resetTime ∧
        e₂.blockedUntil = some (now + bd * 1000)) ∧
    ((e.points ≤ 0 ∧ bd = 0) →
      (consume s key pts dur bd now).1 = ⟨false, 0, e.resetTime⟩) ∧
    (0 < e.points →
      (consume s key pts dur bd now).1 = ⟨true, e.points - 1, e.resetTime⟩ ∧
      ∃ e₂, mapGet (consume s key pts dur bd now).2.storage key = some e₂ ∧
        e₂.points = e.points - 1 ∧ e₂.resetTime = e.resetTime) := by
  have hcond : ¬(truthyNum e.blockedUntil = true ∧ now < e.blockedUntil.getD 0) := by
    rintro ⟨h₁, h₂⟩
    cases hb : e.blockedUntil with
    | none => rw [hb] at h₁; exact absurd h₁ (by simp [truthyNum])
    | some b =>
      have hble := hnoblock b hb
      rw [hb] at h₂
      simp only [Option.getD_some] at h₂
      omega
  rw [consume_eq_live s key pts dur bd now e hget hlive]
  unfold consumeLive
  rw [if_neg hcond]
  dsimp only
  by_cases hcl : blockCleared e now = true
  · simp only [if_pos hcl]
    refine ⟨?_, ?_, ?_⟩
    · rintro ⟨hp, hbd⟩
      rw [if_pos (show ({ e with blockedUntil := none } : RateLimitEntry).points ≤ 0 from hp),
        if_pos hbd]
      exact ⟨rfl, ⟨_, mapGet_mapSet_self _ _ _, rfl, rfl, rfl⟩⟩
    · rintro ⟨hp, hbd⟩
      rw [if_pos (show ({ e with blockedUntil := none } : RateLimitEntry).points ≤ 0 from hp),
        if_neg (by omega : ¬(0 : Int) < bd)]
    · intro hp
      rw [if_neg (show ¬({ e with blockedUntil := none } : RateLimitEntry).points ≤ 0 by
        simpa using by omega)]
      exact ⟨rfl, ⟨_, mapGet_mapSet_self _ _ _, rfl, rfl⟩⟩
  · simp only [if_neg hcl]
    refine ⟨?_, ?_, ?_⟩
    · rintro ⟨hp, hbd⟩
      rw [if_pos hp, if_pos hbd]
      exact ⟨rfl, ⟨_, mapGet_mapSet_self _ _ _, rfl, rfl, rfl⟩⟩
    · rintro ⟨hp, hbd⟩
      rw [if_pos hp, if_neg (by omega : ¬(0 : Int) < bd)]
    · intro hp
      rw [if_neg (by omega : ¬e.points ≤ 0)]
      exact ⟨rfl, ⟨_, mapGet_mapSet_self _ _ _, rfl, rfl⟩⟩

/-- Witness for C5: a live exhausted entry with positive block duration is
denied with a fresh block end. -/
theorem consume_live_entry_spec_witness :
    (consume demoLiveStore "k" 5 60 3 2000).1 = ⟨false, 0, 2000 + 3 * 1000⟩ :=
  (((consume_live_entry_spec demoLiveStore "k" 5 60 3 2000 ⟨0, 10000, none⟩
    (by decide) (by decide) (by intro b hb; simp at hb)).1) ⟨by decide, by decide⟩).1

/-- Claim C7: `getStatus` never mutates the store; it returns `none` exactly
when the identifier is absent or its window has expired, and otherwise
reports the entry's points with the block end as `resetTime` while a block
is active and the window `resetTime` otherwise. -/
theorem getStatus_pure_and_spec (s : MemoryStorage) (key : String) (now : Int)
    (hnow : 0 ≤ now) :
    (getStatus s key now).2 = s ∧
    ((getStatus s key now).1 = none ↔
      mapGet s.storage key = none ∨
        ∃ e, mapGet s.storage key = some e ∧ e.resetTime ≤ now) ∧
    (∀ e, mapGet s.storage key = some e → now < e.resetTime →
      (getStatus s key now).1 = some ⟨e.points,
        (match e.blockedUntil with
          | some b => if now < b then b else e.resetTime
          | none => e.resetTime),
        (match e.blockedUntil with
          | some b => decide (now < b)
          | none => false)⟩) := by
  refine ⟨?_, ?_, ?_⟩
  · unfold getStatus
    cases mapGet s.storage key with
    | none => rfl
    | some e =>
      dsimp only
      split
      · rfl
      · rfl
  · cases h : mapGet s.storage key with
    | none => simp [getStatus, h]
    | some e =>
      simp only [getStatus, h]
      by_cases h₁ : e.resetTime ≤ now
      · rw [if_pos h₁]
        simp [h₁]
      · rw [if_neg h₁]
        simp [h₁]
  · intro e he hlt
    simp only [getStatus, he]
    rw [if_neg (by omega : ¬e.resetTime ≤ now)]
    cases hb : e.blockedUntil with
    | none => simp [truthyNum, hb]
    | some b =>
      by_cases hb0 : b = 0
      · subst hb0
        simp only [hb, truthyNum]
        have : ¬now < (0 : Int) := by omega
        simp [this]
      · simp only [hb, truthyNum, Option.getD_some]
        by_cases hnb : now < b
        · simp [hnb, hb0, bne]
        · simp [hnb, hb0, bne]

/-- Witness for C7: on a live blocked entry the reported `resetTime` is the
block end, and the store is returned unchanged. -/
theorem getStatus_pure_and_spec_witness :
    (getStatus demoBlockedStore "k" 2000).2 = demoBlockedStore ∧
    (getStatus demoBlockedStore "k" 2000).1 = some ⟨0, 7000, true⟩ := by
  have h := getStatus_pure_and_spec demoBlockedStore "k" 2000 (by decide)
  refine ⟨h.1, ?_⟩
  have h₂ := h.2.2 ⟨0, 10000, some 7000⟩ (by decide) (by decide)
  rw [h₂]
  decide

/-- Counterexample to claim C1: at time 2000 the entry for `"k"` still has
`blockedUntil = 10500 > 2000`, yet `consume` succeeds and installs a fresh
window (the expired-window check precedes the block check), instead of
denying with `resetTime = 10500` as the claim states. -/
theorem consume_restarts_window_during_active_block :
    mapGet c1s₂.storage "k" = some ⟨0, 1000, some 10500⟩ ∧
    (2000 : Int) < 10500 ∧
    (consume c1s₂ "k" 1 1 10 2000).1 = ⟨true, 0, 3000⟩ ∧
    mapGet (consume c1s₂ "k" 1 1 10 2000).2.storage "k" = some ⟨0, 3000, none⟩ := by
  decide

/-- Claim C1 as amended: an active block (`blockedUntil > now`) denies every
consume with `resetTime = blockedUntil` and leaves the store unchanged only
while the entry's window is still live (`resetTime > now`); once the window
has expired, the next consume starts a fresh window and succeeds even though
the block has not elapsed. -/
theorem block_denies_while_window_live (s : MemoryStorage) (key : String)
    (pts dur bd now b : Int) (e : RateLimitEntry)
    (hget : mapGet s.storage key = some e)
    (hb : e.blockedUntil = some b) (hb0 : b ≠ 0) (hbnow : now < b) :
    (now < e.resetTime →
      (consume s key pts dur bd now).1 = ⟨false, 0, b⟩ ∧
      (consume s key pts dur bd now).2 = s) ∧
    (e.resetTime ≤ now →
      (consume s key pts dur bd now).1 = ⟨true, pts - 1, now + dur * 1000⟩) := by
  constructor
  · intro hlt
    rw [consume_eq_live s key pts dur bd now e hget hlt]
    unfold consumeLive
    rw [if_pos ⟨by simp [truthyNum, hb, hb0], by simp [hb]; omega⟩]
    simp [hb]
  · intro hle
    rw [consume_eq_fresh_of_expired s key pts dur bd now e hget hle]
    exact consumeFresh_result s key pts dur now false

/-- Witness for the amended C1 at a concrete blocked, live-window state. -/
theorem block_denies_while_window_live_witness :
    (consume c1s₂ "k" 1 1 10 800).1 = ⟨false, 0, 10500⟩ ∧
    (consume c1s₂ "k" 1 1 10 800).2 = c1s₂ :=
  (block_denies_while_window_live c1s₂ "k" 1 1 10 800 10500 ⟨0, 1000, some 10500⟩
    (by decide) rfl (by decide) (by decide)).1 (by decide)

/-! ### Claim C2: capacity invariant and the eviction counterexample -/

theorem mapSet_mapSet (m : StorageMap) (k : String) (v v₂ : RateLimitEntry) :
    mapSet (mapSet m k v) k v₂ = mapSet m k v₂ := by
  induction m with
  | nil => simp [mapSet]
  | cons p rest ih =>
    obtain ⟨k₁, v₁⟩ := p
    by_cases h₁ : k₁ = k
    · simp [mapSet, h₁]
    · simp [mapSet, h₁, ih]

theorem evictOldest_goodKeys (s : MemoryStorage) (hg : goodKeysInv s) :
    goodKeysInv (evictOldest s) := by
  rcases evictOldest_storage_cases s with h₀ | ⟨k, hk⟩
  · intro p hp; rw [h₀] at hp; exact hg p hp
  · intro p hp; rw [hk] at hp; exact hg p (mem_mapDelete _ _ p hp)

theorem consumeFresh_sizeInv (s : MemoryStorage) (key : String) (p d n : Int) (abs : Bool)
    (hkey : key ≠ "")
    (habs : abs = true → mapGet s.storage key = none)
    (hpres : abs = false → (mapGet s.storage key).isSome = true)
    (hinv : sizeInv s) :
    sizeInv (consumeFresh s key p d n abs).2 := by
  obtain ⟨hg, hlen, hmax⟩ := hinv
  have hst := consumeFresh_storage s key p d n abs
  have hms := consumeFresh_maxSize s key p d n abs
  by_cases hcond : s.maxSize ≤ s.storage.length ∧ abs = true
  · rw [if_pos hcond] at hst
    have hnone := habs hcond.2
    have hlen₀ : s.storage.length = s.maxSize := le_antisymm hlen hcond.1
    have hne : s.storage ≠ [] := by
      intro h
      rw [h] at hlen₀
      simp at hlen₀
      omega
    have hev := evictOldest_length s hg hne
    have hnone₂ : mapGet (evictOldest s).storage key = none :=
      evictOldest_mapGet_none s key hnone
    refine ⟨?_, ?_, ?_⟩
    · intro q hq
      rw [hst] at hq
      rcases mem_mapSet _ _ _ q hq with h₀ | h₀
      · exact evictOldest_goodKeys s hg q h₀
      · rw [h₀]; exact hkey
    · rw [hms, hst, length_mapSet_none _ _ _ hnone₂]
      omega
    · rw [hms]; exact hmax
  · rw [if_neg hcond] at hst
    refine ⟨?_, ?_, ?_⟩
    · intro q hq
      rw [hst] at hq
      rcases mem_mapSet _ _ _ q hq with h₀ | h₀
      · exact hg q h₀
      · rw [h₀]; exact hkey
    · rw [hms, hst]
      cases habs₂ : abs with
      | true =>
        have hlt : s.storage.length < s.maxSize := by
          rcases not_and_or.mp hcond with h₀ | h₀
          · omega
          · exact absurd habs₂ h₀
        rw [length_mapSet_none _ _ _ (habs habs₂)]
        omega
      | false =>
        rw [length_mapSet_isSome _ _ _ (hpres habs₂)]
        exact hlen
    · rw [hms]; exact hmax

theorem consumeLive_storage_cases (s : MemoryStorage) (key : String) (bd now : Int)
    (e : RateLimitEntry) :
    (consumeLive s key bd now e).2.storage = s.storage ∨
      ∃ v, (consumeLive s key bd now e).2.storage = mapSet s.storage key v := by
  unfold consumeLive
  split
  · exact Or.inl rfl
  · dsimp only
    by_cases hcl : blockCleared e now = true
    · simp only [if_pos hcl]
      split
      · split
        · exact Or.inr ⟨_, by dsimp only; rw [mapSet_mapSet]⟩
        · exact Or.inr ⟨_, rfl⟩
      · exact Or.inr ⟨_, by dsimp only; rw [mapSet_mapSet]⟩
    · simp only [if_neg hcl]
      split
      · split
        · exact Or.inr ⟨_, rfl⟩
        · exact Or.inl rfl
      · exact Or.inr ⟨_, rfl⟩

theorem consumeLive_sizeInv (s : MemoryStorage) (key : String) (bd now : Int)
    (e : RateLimitEntry) (hkey : key ≠ "")
    (hsome : (mapGet s.storage key).isSome = true) (hinv : sizeInv s) :
    sizeInv (consumeLive s key bd now e).2 := by
  obtain ⟨hg, hlen, hmax⟩ := hinv
  have hms := consumeLive_maxSize s key bd now e
  rcases consumeLive_storage_cases s key bd now e with h₀ | ⟨v, hv⟩
  · exact ⟨fun q hq => hg q (h₀ ▸ hq), by rw [hms, h₀]; exact hlen, by rw [hms]; exact hmax⟩
  · refine ⟨?_, ?_, ?_⟩
    · intro q hq
      rw [hv] at hq
      rcases mem_mapSet _ _ _ q hq with h₁ | h₁
      · exact hg q h₁
      · rw [h₁]; exact hkey
    · rw [hms, hv, length_mapSet_isSome _ _ _ hsome]
      exact hlen
    · rw [hms]; exact hmax

theorem consume_sizeInv (s : MemoryStorage) (key : String) (p d bd n : Int)
    (hkey : key ≠ "") (hinv : sizeInv s) :
    sizeInv (consume s key p d bd n).2 := by
  unfold consume
  cases hget : mapGet s.storage key with
  | none =>
    exact consumeFresh_sizeInv s key p d n true hkey (fun _ => hget)
      (fun h => by simp at h) hinv
  | some e =>
    dsimp only
    split
    · exact consumeFresh_sizeInv s key p d n false hkey (fun h => by simp at h)
        (fun _ => by rw [hget]; rfl) hinv
    · exact consumeLive_sizeInv s key bd n e hkey (by rw [hget]; rfl) hinv

theorem applyOp_sizeInv (s : MemoryStorage) (op : StoreOp)
    (hop : keyWfB op = true) (hinv : sizeInv s) : sizeInv (applyOp s op) := by
  obtain ⟨hg, hlen, hmax⟩ := hinv
  cases op with
  | consumeOp k p d b n =>
    have hk : k ≠ "" := by simpa [keyWfB] using hop
    exact consume_sizeInv s k p d b n hk ⟨hg, hlen, hmax⟩
  | deleteOp k =>
    refine ⟨fun q hq => hg q (mem_mapDelete _ _ q hq), ?_, hmax⟩
    exact le_trans (length_mapDelete_le s.storage k) hlen
  | resetOp =>
    dsimp only [applyOp]
    exact ⟨fun q hq => by simp [resetStore] at hq, by simp [resetStore], hmax⟩
  | cleanupOp n =>
    dsimp only [applyOp]
    have hst : (cleanup s n).storage = s.storage.filter (fun p => !expiredEntry n p.2) := by
      unfold cleanup
      rw [updateOldestEntry_storage]
    have hms : (cleanup s n).maxSize = s.maxSize := by
      unfold cleanup
      rw [updateOldestEntry_maxSize]
    refine ⟨?_, ?_, by rw [hms]; exact hmax⟩
    · intro q hq
      rw [hst] at hq
      exact hg q (List.mem_of_mem_filter hq)
    · rw [hst, hms]
      exact le_trans (List.length_filter_le _ _) hlen

theorem runOps_sizeInv (ops : List StoreOp) :
    ∀ (s : MemoryStorage), sizeInv s → (∀ op ∈ ops, keyWfB op = true) →
      sizeInv (runOps s ops) := by
  induction ops with
  | nil => intro s hinv _; exact hinv
  | cons op rest ih =>
    intro s hinv hops
    exact ih (applyOp s op) (applyOp_sizeInv s op (hops op (by simp)) hinv)
      (fun q hq => hops q (List.mem_cons_of_mem _ hq))

/-- Counterexample to claim C2: with capacity 2 the store holds
`A -> resetTime 102000` and `B -> resetTime 100000`; consuming the new key
`C` evicts `A` (the stale hint) even though `B` has the strictly earliest
`resetTime`, so the evicted entry is not the one with the globally earliest
`resetTime`. -/
theorem eviction_not_globally_earliest :
    c2s₃.storage.length = 2 ∧
    c2s₃.maxSize = 2 ∧
    mapGet c2s₃.storage "A" = some ⟨0, 102000, none⟩ ∧
    mapGet c2s₃.storage "B" = some ⟨0, 100000, none⟩ ∧
    mapGet c2s₃.storage "C" = none ∧
    (100000 : Int) < 102000 ∧
    mapGet c2s₄.storage "A" = none ∧
    mapGet c2s₄.storage "B" = some ⟨0, 100000, none⟩ ∧
    mapGet c2s₄.storage "C" = some ⟨0, 3000, none⟩ := by
  decide

/-- Claim C2 as amended: over every operation sequence with non-empty
identifiers and a positive capacity, the store never holds more than
`maxSize` entries; and a consume that finds an existing entry for its own
identifier (live or expired) never evicts: the store size is unchanged and
every other identifier's entry is untouched.  (The evicted entry is chosen
through the cached oldest-entry hint, which can be stale, so it need not be
the entry with the globally earliest `resetTime`.) -/
theorem store_bounded_and_no_evict_on_refresh :
    (∀ (maxSize : Nat) (ops : List StoreOp), 1 ≤ maxSize →
      (∀ op ∈ ops, keyWfB op = true) →
      (runOps (emptyStorage maxSize) ops).storage.length ≤
        (runOps (emptyStorage maxSize) ops).maxSize) ∧
    (∀ (s : MemoryStorage) (key : String) (pts dur bd now : Int),
      (mapGet s.storage key).isSome = true →
      (consume s key pts dur bd now).2.storage.length = s.storage.length ∧
      ∀ k₂, k₂ ≠ key →
        mapGet (consume s key pts dur bd now).2.storage k₂ = mapGet s.storage k₂) := by
  constructor
  · intro maxSize ops hmax hops
    have hinv : sizeInv (emptyStorage maxSize) := by
      refine ⟨fun q hq => by simp [emptyStorage] at hq, ?_, hmax⟩
      simp [emptyStorage]
    exact (runOps_sizeInv ops (emptyStorage maxSize) hinv hops).2.1
  · intro s key pts dur bd now hsome
    obtain ⟨e, he⟩ := Option.isSome_iff_exists.mp hsome
    by_cases hexp : e.resetTime ≤ now
    · rw [consume_eq_fresh_of_expired s key pts dur bd now e he hexp]
      have hst := consumeFresh_storage s key pts dur now false
      rw [if_neg (by simp)] at hst
      constructor
      · rw [hst, length_mapSet_isSome _ _ _ hsome]
      · intro k₂ hk₂
        rw [hst, mapGet_mapSet_ne _ _ _ _ hk₂]
    · rw [consume_eq_live s key pts dur bd now e he (by omega)]
      rcases consumeLive_storage_cases s key bd now e with h₀ | ⟨v, hv⟩
      · exact ⟨by rw [h₀], fun k₂ _ => by rw [h₀]⟩
      · constructor
        · rw [hv, length_mapSet_isSome _ _ _ hsome]
        · intro k₂ hk₂
          rw [hv, mapGet_mapSet_ne _ _ _ _ hk₂]

/-- Witness for the amended C2 on the concrete capacity-2 run. -/
theorem store_bounded_and_no_evict_on_refresh_witness :
    (runOps (emptyStorage 2) c2ops).storage.length ≤
        (runOps (emptyStorage 2) c2ops).maxSize ∧
      (consume c2s₃ "A" 1 1 0 2500).2.storage.length = c2s₃.storage.length :=
  ⟨store_bounded_and_no_evict_on_refresh.1 2 c2ops (by decide) (by decide),
   (store_bounded_and_no_evict_on_refresh.2 c2s₃ "A" 1 1 0 2500 (by decide)).1⟩

/-! ### Claim C10: points never go negative -/

theorem consumeFresh_pointsInv (s : MemoryStorage) (key : String) (p d n : Int)
    (abs : Bool) (hp : 1 ≤ p) (hinv : pointsInvP s) :
    pointsInvP (consumeFresh s key p d n abs).2 := by
  intro q hq
  rw [consumeFresh_storage s key p d n abs] at hq
  rcases mem_mapSet _ _ _ q hq with h₀ | h₀
  · by_cases hcond : s.maxSize ≤ s.storage.length ∧ abs = true
    · rw [if_pos hcond] at h₀
      rcases evictOldest_storage_cases s with h₁ | ⟨k, hk⟩
      · exact hinv q (h₁ ▸ h₀)
      · exact hinv q (mem_mapDelete _ _ q (hk ▸ h₀))
    · rw [if_neg hcond] at h₀
      exact hinv q h₀
  · rw [h₀]
    dsimp only
    omega

theorem consumeLive_pointsInv (s : MemoryStorage) (key : String) (bd now : Int)
    (e : RateLimitEntry) (hinv : pointsInvP s) (he : 0 ≤ e.points) :
    pointsInvP (consumeLive s key bd now e).2 := by
  unfold consumeLive
  split
  · exact hinv
  · dsimp only
    by_cases hcl : blockCleared e now = true
    · simp only [if_pos hcl]
      split
      · split
        · intro q hq
          dsimp only at hq
          rw [mapSet_mapSet] at hq
          rcases mem_mapSet _ _ _ q hq with h₀ | h₀
          · exact hinv q h₀
          · rw [h₀]; exact he
        · intro q hq
          dsimp only at hq
          rcases mem_mapSet _ _ _ q hq with h₀ | h₀
          · exact hinv q h₀
          · rw [h₀]; exact he
      · rename_i hpts
        intro q hq
        dsimp only at hq
        rw [mapSet_mapSet] at hq
        rcases mem_mapSet _ _ _ q hq with h₀ | h₀
        · exact hinv q h₀
        · rw [h₀]
          dsimp only at hpts ⊢
          omega
    · simp only [if_neg hcl]
      split
      · split
        · intro q hq
          dsimp only at hq
          rcases mem_mapSet _ _ _ q hq with h₀ | h₀
          · exact hinv q h₀
          · rw [h₀]; exact he
        · exact hinv
      · rename_i hpts
        intro q hq
        dsimp only at hq
        rcases mem_mapSet _ _ _ q hq with h₀ | h₀
        · exact hinv q h₀
        · rw [h₀]
          dsimp only
          omega

theorem consume_pointsInv (s : MemoryStorage) (key : String) (p d bd n : Int)
    (hp : 1 ≤ p) (hinv : pointsInvP s) : pointsInvP (consume s key p d bd n).2 := by
  unfold consume
  cases hget : mapGet s.storage key with
  | none => exact consumeFresh_pointsInv s key p d n true hp hinv
  | some e =>
    dsimp only
    split
    · exact consumeFresh_pointsInv s key p d n false hp hinv
    · exact consumeLive_pointsInv s key bd n e hinv
        (hinv (key, e) (mem_of_mapGet _ _ _ hget))

theorem applyOp_pointsInv (s : MemoryStorage) (op : StoreOp)
    (hop : pointsWfB op = true) (hinv : pointsInvP s) : pointsInvP (applyOp s op) := by
  cases op with
  | consumeOp k p d b n =>
    have hp : 1 ≤ p := by simpa [pointsWfB] using hop
    exact consume_pointsInv s k p d b n hp hinv
  | deleteOp k =>
    exact fun q hq => hinv q (mem_mapDelete _ _ q hq)
  | resetOp =>
    intro q hq
    simp [applyOp, resetStore] at hq
  | cleanupOp n =>
    dsimp only [applyOp]
    intro q hq
    have hst : (cleanup s n).storage = s.storage.filter (fun p => !expiredEntry n p.2) := by
      unfold cleanup
      rw [updateOldestEntry_storage]
    rw [hst] at hq
    exact hinv q (List.mem_of_mem_filter hq)

theorem runOps_pointsInv (ops : List StoreOp) :
    ∀ (s : MemoryStorage), pointsInvP s → (∀ op ∈ ops, pointsWfB op = true) →
      pointsInvP (runOps s ops) := by
  induction ops with
  | nil => intro s hinv _; exact hinv
  | cons op rest ih =>
    intro s hinv hops
    exact ih (applyOp s op) (applyOp_pointsInv s op (hops op (by simp)) hinv)
      (fun q hq => hops q (List.mem_cons_of_mem _ hq))

theorem consume_result_nonneg (s : MemoryStorage) (key : String) (pts dur bd now : Int)
    (hpts : 1 ≤ pts) :
    0 ≤ (consume s key pts dur bd now).1.remainingPoints ∧
    ((consume s key pts dur bd now).1.success = false →
      (consume s key pts dur bd now).1.remainingPoints = 0) := by
  unfold consume
  cases hget : mapGet s.storage key with
  | none =>
    rw [consumeFresh_result]
    exact ⟨by dsimp only; omega, by intro h; simp at h⟩
  | some e =>
    dsimp only
    split
    · rw [consumeFresh_result]
      exact ⟨by dsimp only; omega, by intro h; simp at h⟩
    · unfold consumeLive
      split
      · exact ⟨le_refl 0, fun _ => rfl⟩
      · dsimp only
        repeat' split
        all_goals
          first
          | exact ⟨le_refl 0, fun _ => rfl⟩
          | · rename_i hgt
              refine ⟨?_, ?_⟩
              · dsimp only at hgt ⊢
                omega
              · intro h
                simp at h

/-- Claim C10: over every operation sequence whose consumes all pass a
points budget of at least 1, every stored entry keeps `points >= 0`; and
every consume with `points >= 1` returns `remainingPoints >= 0`, with every
denial returning `remainingPoints = 0`. -/
theorem points_nonneg_invariant :
    (∀ (maxSize : Nat) (ops : List StoreOp),
      (∀ op ∈ ops, pointsWfB op = true) →
      ∀ p ∈ (runOps (emptyStorage maxSize) ops).storage, 0 ≤ p.2.points) ∧
    (∀ (s : MemoryStorage) (key : String) (pts dur bd now : Int), 1 ≤ pts →
      0 ≤ (consume s key pts dur bd now).1.remainingPoints ∧
      ((consume s key pts dur bd now).1.success = false →
        (consume s key pts dur bd now).1.remainingPoints = 0)) := by
  constructor
  · intro maxSize ops hops
    exact runOps_pointsInv ops (emptyStorage maxSize)
      (fun q hq => by simp [emptyStorage] at hq) hops
  · intro s key pts dur bd now hpts
    exact consume_result_nonneg s key pts dur bd now hpts

/-- Witness for C10 on the concrete capacity-2 run and a concrete denial. -/
theorem points_nonneg_invariant_witness :
    (∀ p ∈ (runOps (emptyStorage 2) c2ops).storage, 0 ≤ p.2.points) ∧
    0 ≤ (consume demoLiveStore "k" 5 60 0 2000).1.remainingPoints ∧
    ((consume demoLiveStore "k" 5 60 0 2000).1.success = false →
      (consume demoLiveStore "k" 5 60 0 2000).1.remainingPoints = 0) :=
  ⟨points_nonneg_invariant.1 2 c2ops (by decide),
   points_nonneg_invariant.2 demoLiveStore "k" 5 60 0 2000 (by decide)⟩

/-- Claim C3 (code bug): the IP fallback for a missing API key never fires.
Key mode is only consulted when `ip` is explicitly `false`, and on that path
the fallback guard `ip !== false` is always false, so a request with no key
resolves to no identifier even with `fallbackToIpOnMissingKey` at its
default `true` — never to `ip:<remoteAddress>` as the claim states.  When
`ip` is not disabled, resolution is pure IP mode and key mode is ignored. -/
theorem missing_key_never_falls_back_to_ip :
    getClientIdentifier (.flag false) (.flag true) bareRequest =
      ResolveOutcome.noIdentifier ∧
    getClientIdentifier (.flag false) (.opts ⟨[], [], none, none, some true⟩)
      bareRequest = ResolveOutcome.noIdentifier ∧
    getClientIdentifier (.flag false) (.opts ⟨[], [], none, none, none⟩)
      bareRequest = ResolveOutcome.noIdentifier ∧
    getClientIdentifier (.flag true) (.opts ⟨[], [], none, none, some true⟩)
      bareRequest = ResolveOutcome.ident "ip:1.2.3.4" := by
  decide

/-! ### Claim C8: API-key sanitization -/

theorem trimStr_data (s : String) : (trimStr s).data = trimChars s.data := rfl

theorem trimStr_empty_iff (s : String) : trimStr s = "" ↔ strLength (trimStr s) = 0 := by
  unfold strLength
  rw [String.ext_iff]
  show trimChars s.data = ("" : String).data ↔ _
  rw [trimStr_data]
  show trimChars s.data = [] ↔ _
  rw [List.length_eq_zero]

/-- Claim C8: key resolution trims the candidate; a candidate that trims to
empty is treated as missing; otherwise any trimmed key longer than 512
characters or containing a character outside `[A-Za-z0-9._-]` is classified
blocked (the thrown `BlockedApiKeyError`), never truncated, altered, or
accepted; a valid key is bypassed, blocked, or becomes exactly
`key:<trimmed>`. -/
theorem key_sanitization_spec (keyCfg : KeySetting) (req : Request) (s : String)
    (hc : apiKeyCandidate keyCfg.toOptions req = some s) (hs : s ≠ "") :
    (trimStr s = "" → checkKeyIdentifier keyCfg req = KeyCheck.missing) ∧
    ((API_KEY_MAX_LENGTH < strLength (trimStr s) ∨
        ¬((trimStr s).data.all isApiKeyChar = true)) →
      trimStr s ≠ "" →
      checkKeyIdentifier keyCfg req = KeyCheck.blocked) ∧
    (trimStr s ≠ "" → strLength (trimStr s) ≤ API_KEY_MAX_LENGTH →
      (trimStr s).data.all isApiKeyChar = true →
      (checkKeyIdentifier keyCfg req = KeyCheck.bypass ∨
        checkKeyIdentifier keyCfg req = KeyCheck.blocked ∨
        checkKeyIdentifier keyCfg req = KeyCheck.ident ("key:" ++ trimStr s))) := by
  have htr : truthyStr (some s) = true := by simp [truthyStr, hs]
  unfold checkKeyIdentifier
  dsimp only
  rw [hc]
  simp only [htr, Bool.not_true, Bool.false_eq_true, if_false, Option.getD_some]
  refine ⟨?_, ?_, ?_⟩
  · intro h0
    have hlen0 : strLength (trimStr s) = 0 := (trimStr_empty_iff s).mp h0
    have hnone : sanitizeApiKey s = none := by
      unfold sanitizeApiKey
      rw [if_neg hs, if_pos (Or.inl hlen0)]
    rw [hnone]
    dsimp only
    rw [if_pos h0]
  · intro hviol hne
    have hnone : sanitizeApiKey s = none := by
      unfold sanitizeApiKey
      rw [if_neg hs]
      by_cases h1 : strLength (trimStr s) = 0 ∨ API_KEY_MAX_LENGTH < strLength (trimStr s)
      · rw [if_pos h1]
      · rw [if_neg h1]
        rcases hviol with hlong | hbad
        · exact absurd (Or.inr hlong) h1
        · rw [if_pos (by simp [Bool.eq_false_iff.mpr hbad])]
    rw [hnone]
    dsimp only
    rw [if_neg hne]
  · intro hne hlen hall
    have hlen0 : ¬strLength (trimStr s) = 0 := fun h =>
      hne ((trimStr_empty_iff s).mpr h)
    have hsome : sanitizeApiKey s = some (trimStr s) := by
      unfold sanitizeApiKey
      rw [if_neg hs, if_neg (by push_neg; exact ⟨hlen0, by omega⟩),
        if_neg (by simp [hall])]
    rw [hsome]
    dsimp only
    cases checkLists (trimStr s) keyCfg.toOptions.allowList keyCfg.toOptions.blockList with
    | allow => exact Or.inl rfl
    | block => exact Or.inr (Or.inl rfl)
    | cont => exact Or.inr (Or.inr rfl)

/-- Witness for C8: the key `"ab cd"` (contains a space) is blocked. -/
theorem key_sanitization_spec_witness :
    checkKeyIdentifier (.flag true) spacedKeyRequest = KeyCheck.blocked :=
  (key_sanitization_spec (.flag true) spacedKeyRequest "ab cd" (by decide)
    (by decide)).2.1 (Or.inr (by decide)) (by decide)

/-! ### Claim C6: the X-Forwarded-For chain walk -/

theorem findFromRight_eq_find (trusted l : List String) :
    findFromRight trusted l = l.find? (fun ip => !trusted.contains ip) := by
  induction l with
  | nil => rfl
  | cons ip rest ih =>
    unfold findFromRight
    by_cases h : trusted.contains ip = true
    · rw [if_pos h, ih,
        List.find?_cons_of_neg _ (by simp [List.mem_of_elem_eq_true h])]
    · have h₂ : trusted.contains ip = false := by simpa using h
      rw [if_neg h, List.find?_cons_of_pos _ (by
        show (!trusted.contains ip) = true
        rw [h₂]
        rfl)]

theorem findClientIpFromChain_eq_spec (ips trusted : List String) :
    findClientIpFromChain ips trusted = walkChainFromSpec ips trusted := by
  unfold findClientIpFromChain walkChainFromSpec
  rw [findFromRight_eq_find]
  cases ips.reverse.find? (fun ip => !trusted.contains ip) <;> rfl

/-- Claim C6: when forwarded-header trust is on, the remote address is a
listed trusted proxy and the header yields a non-empty validated chain, the
resolved IP is the rightmost chain entry not in the trusted list (or the
leftmost when all are trusted); when any trust condition fails, the direct
remote address is used. -/
theorem getClientIp_chain_spec (ipOptions : RatliIpOptions) (req : Request)
    (h : String) :
    (ipOptions.allowXForwardedFor = true →
      req.headers X_FORWARDED_FOR_HEADER = some h → h ≠ "" →
      ipOptions.allowXForwardedForFrom.contains req.remoteAddress = true →
      extractForwardedIps h ≠ [] →
      getClientIp req ipOptions =
        walkChainFromSpec (extractForwardedIps h) ipOptions.allowXForwardedForFrom) ∧
    (ipOptions.allowXForwardedFor = false →
      getClientIp req ipOptions = req.remoteAddress) ∧
    (req.headers X_FORWARDED_FOR_HEADER = none →
      getClientIp req ipOptions = req.remoteAddress) ∧
    (ipOptions.allowXForwardedForFrom.contains req.remoteAddress = false →
      getClientIp req ipOptions = req.remoteAddress) := by
  refine ⟨?_, ?_, ?_, ?_⟩
  · intro hx hh hne hcont hips
    have hnem : ipOptions.allowXForwardedForFrom.isEmpty = false := by
      cases hl : ipOptions.allowXForwardedForFrom with
      | nil => rw [hl] at hcont; simp at hcont
      | cons a l => rfl
    unfold getClientIp
    rw [hx, hh]
    simp only [Bool.not_true, Bool.false_eq_true, if_false]
    rw [if_neg hne, if_neg hips]
    have htrust : shouldTrustProxy req.remoteAddress ipOptions = true := by
      unfold shouldTrustProxy
      rw [hcont, hnem]
      rfl
    rw [htrust]
    simp only [Bool.not_true, Bool.false_eq_true, if_false]
    exact findClientIpFromChain_eq_spec _ _
  · intro hx
    unfold getClientIp
    rw [hx]
    rfl
  · intro hh
    unfold getClientIp
    rw [hh]
    split
    · rfl
    · rfl
  · intro hcf
    unfold getClientIp
    by_cases hx : ipOptions.allowXForwardedFor = true
    · rw [hx]
      simp only [Bool.not_true, Bool.false_eq_true, if_false]
      cases hh : req.headers X_FORWARDED_FOR_HEADER with
      | none => rfl
      | some fwd =>
        dsimp only
        by_cases hfe : fwd = ""
        · rw [if_pos hfe]
        · rw [if_neg hfe]
          by_cases hie : extractForwardedIps fwd = []
          · rw [if_pos hie]
          · rw [if_neg hie]
            have htrust : shouldTrustProxy req.remoteAddress ipOptions = false := by
              unfold shouldTrustProxy
              rw [hcf, Bool.and_false]
            rw [htrust]
            rfl
    · have hx₂ : ipOptions.allowXForwardedFor = false := by
        cases hb : ipOptions.allowXForwardedFor
        · rfl
        · exact absurd hb hx
      rw [hx₂]
      rfl

/-- Witness for C6 at spec example 8: remote `10.0.0.1` trusted, header
`1.2.3.4, 10.0.0.1`, resolved IP `1.2.3.4`. -/
theorem getClientIp_chain_spec_witness :
    getClientIp chainRequest chainIpOptions =
      walkChainFromSpec (extractForwardedIps "1.2.3.4, 10.0.0.1")
        chainIpOptions.allowXForwardedForFrom ∧
    walkChainFromSpec (extractForwardedIps "1.2.3.4, 10.0.0.1")
      chainIpOptions.allowXForwardedForFrom = "1.2.3.4" :=
  ⟨(getClientIp_chain_spec chainIpOptions chainRequest "1.2.3.4, 10.0.0.1").1
      rfl (by decide) (by decide) (by decide) (by decide),
    by decide⟩

/-- Claim C9: a configured `onRateLimit` or `onBlock` callback that throws
never changes the deny decision or its metadata — the 429 and 403 responses
are identical whatever the callback does (or if none is configured) — and
the thrown error is captured as a `server.log` event instead of
propagating. -/
theorem callback_failure_isolated :
    (∀ (cb₁ cb₂ : Callback) (idf : String) (req : Request) (rt pts now : Int),
      (handleRateLimitExceeded (some cb₁) idf req rt pts now).1 =
        (handleRateLimitExceeded (some cb₂) idf req rt pts now).1) ∧
    (∀ (cb : Callback) (idf : String) (req : Request) (rt pts now : Int),
      (handleRateLimitExceeded (some cb) idf req rt pts now).1 =
        (handleRateLimitExceeded none idf req rt pts now).1) ∧
    (∀ (cb₁ cb₂ : Callback) (err : BlockedError) (req : Request),
      (handleBlockedClient (some cb₁) err req).1 =
        (handleBlockedClient (some cb₂) err req).1) ∧
    (∀ (cb : Callback) (idf : String) (req : Request) (rt pts now : Int) (e : String),
      cb idf req = Except.error e →
      (handleRateLimitExceeded (some cb) idf req rt pts now).2 =
        [⟨["ratli", "error"], e⟩]) ∧
    (∀ (cb : Callback) (err : BlockedError) (req : Request) (e : String),
      (∀ idf, cb idf req = Except.error e) →
      (handleBlockedClient (some cb) err req).2 = [⟨["ratli", "error"], e⟩]) := by
  refine ⟨fun _ _ _ _ _ _ _ => rfl, fun _ _ _ _ _ _ => rfl, fun _ _ _ _ => rfl, ?_, ?_⟩
  · intro cb idf req rt pts now e hcb
    unfold handleRateLimitExceeded invokeCallback
    dsimp only
    rw [hcb]
  · intro cb err req e hcb
    unfold handleBlockedClient invokeCallback
    dsimp only
    cases err with
    | byIp ip => rw [hcb]
    | byKey => rw [hcb]

/-- Witness for C9: a callback that throws `"boom"` leaves the 429 response
unchanged and its failure shows up only as a log event. -/
theorem callback_failure_isolated_witness :
    (handleRateLimitExceeded (some (fun _ _ => Except.error "boom")) "ip:1.2.3.4"
        bareRequest 61000 100 1000).1 =
      (handleRateLimitExceeded none "ip:1.2.3.4" bareRequest 61000 100 1000).1 ∧
    (handleRateLimitExceeded (some (fun _ _ => Except.error "boom")) "ip:1.2.3.4"
        bareRequest 61000 100 1000).2 = [⟨["ratli", "error"], "boom"⟩] :=
  ⟨callback_failure_isolated.2.1 (fun _ _ => Except.error "boom") "ip:1.2.3.4"
      bareRequest 61000 100 1000,
    callback_failure_isolated.2.2.2.1 (fun _ _ => Except.error "boom") "ip:1.2.3.4"
      bareRequest 61000 100 1000 "boom" rfl⟩

end Ratli
